import Mathlib

/-!
Verification of the discord-ipc IPC session engine (src/index.js).

The development shallowly embeds the engine:

* bytes are natural numbers (values written by the source are always < 256),
  byte buffers are lists of naturals;
* the wire framing of DiscordIPC.send / DiscordIPC.setupSocketHandlers is
  modelled at byte level: the payload list stands for the UTF-8 JSON text the
  source produces with JSON.stringify (a platform function outside this
  repository);
* the single-threaded session state (connection flags, outbound queue, pending
  request map, per-request timeout timers) is a structure, and each method of
  the DiscordIPC class becomes a pure function from state to state paired with
  the list of observable events (emitter events, log calls, socket writes,
  promise settlements) it produces.
-/

namespace DiscordIPC

/-! ### Byte-level frame codec -/

/-- Little-endian 32-bit read, modelling buffer.readUInt32LE applied at the head
of the (rest of the) buffer.  The source reads at offsets 0 and 4 only when at
least 8 bytes are buffered, so the fallback branch is unreachable there. -/
def readU32LE : List Nat → Nat
  | b0 :: b1 :: b2 :: b3 :: _ => b0 + b1 * 256 + b2 * 65536 + b3 * 16777216
  | _ => 0

/-- Little-endian 32-bit write, modelling header.writeUInt32LE.  Node throws if
the value is outside [0, 2^32); theorems therefore carry that bound as a
hypothesis. -/
def u32le (n : Nat) : List Nat :=
  [n % 256, n / 256 % 256, n / 65536 % 256, n / 16777216 % 256]

/-- Frame encoding from DiscordIPC.send: an 8-byte little-endian header of
(opcode, payload byte length) followed by the payload bytes (the UTF-8 JSON
text of the value being sent). -/
def encode (opcode : Nat) (payload : List Nat) : List Nat :=
  u32le opcode ++ u32le payload.length ++ payload

/-- Fuel-indexed form of the while loop in DiscordIPC.setupSocketHandlers:
while at least 8 bytes are buffered, read (opcode, length); if the full payload
has not arrived, break without consuming anything; otherwise slice off one
frame and continue.  Every iteration consumes at least 8 bytes, so a fuel equal
to the buffer length always suffices (decodeLoopF_fuel below). -/
def decodeLoopF : Nat → List Nat → List (Nat × List Nat) × List Nat
  | 0, buf => ([], buf)
  | fuel + 1, buf =>
    if 8 ≤ buf.length then
      if buf.length < 8 + readU32LE (buf.drop 4) then
        ([], buf)
      else
        ((readU32LE buf, (buf.drop 8).take (readU32LE (buf.drop 4))) ::
            (decodeLoopF fuel (buf.drop (8 + readU32LE (buf.drop 4)))).1,
          (decodeLoopF fuel (buf.drop (8 + readU32LE (buf.drop 4)))).2)
    else ([], buf)

/-- The streaming frame decoder of DiscordIPC.setupSocketHandlers: from the
accumulated buffer, the list of complete decoded frames (opcode, payload) in
order, together with the unconsumed remainder bytes. -/
def decodeLoop (buf : List Nat) : List (Nat × List Nat) × List Nat :=
  decodeLoopF buf.length buf

/-- One inbound socket data event: the chunk is appended to the buffer and the
decode loop runs over the result. -/
def feedChunk (st : List (Nat × List Nat) × List Nat) (chunk : List Nat) :
    List (Nat × List Nat) × List Nat :=
  ((st.1 ++ (decodeLoop (st.2 ++ chunk)).1), (decodeLoop (st.2 ++ chunk)).2)

/-- Feeding a sequence of inbound chunks in order, accumulating decoded frames. -/
def feedChunks : List (List Nat) → (List (Nat × List Nat) × List Nat) →
    List (Nat × List Nat) × List Nat
  | [], st => st
  | ch :: t, st => feedChunks t (feedChunk st ch)

/-- Concatenation of a chunk list back into the underlying byte stream. -/
def joinChunks : List (List Nat) → List Nat
  | [] => []
  | c :: t => c ++ joinChunks t

/-- Concatenated encoding of a list of frames. -/
def concatEnc : List (Nat × List Nat) → List Nat
  | [] => []
  | f :: t => encode f.1 f.2 ++ concatEnc t

/-- A frame list is valid when every opcode and payload length fits in 32 bits
(otherwise writeUInt32LE in the source would throw while encoding). -/
def framesValid (frames : List (Nat × List Nat)) : Bool :=
  frames.all fun f => decide (f.1 < 4294967296) && decide (f.2.length < 4294967296)

/-! ### Codec lemmas -/

lemma take_len_append {α : Type _} (p rest : List α) : (p ++ rest).take p.length = p := by
  induction p with
  | nil => rfl
  | cons a t ih => simp [ih]

lemma drop_len_append {α : Type _} (p rest : List α) : (p ++ rest).drop p.length = rest := by
  induction p with
  | nil => rfl
  | cons a t ih => simp [ih]

lemma drop_append_le {α : Type _} : ∀ (n : Nat) (l₁ l₂ : List α), n ≤ l₁.length →
    (l₁ ++ l₂).drop n = l₁.drop n ++ l₂
  | 0, _, _, _ => rfl
  | n + 1, [], _, h => by simp at h
  | n + 1, a :: t, l₂, h => by
      simp only [List.cons_append, List.drop_succ_cons]
      exact drop_append_le n t l₂ (by simpa using h)

lemma take_append_le {α : Type _} : ∀ (n : Nat) (l₁ l₂ : List α), n ≤ l₁.length →
    (l₁ ++ l₂).take n = l₁.take n
  | 0, _, _, _ => rfl
  | n + 1, [], _, h => by simp at h
  | n + 1, a :: t, l₂, h => by
      simp only [List.cons_append, List.take_succ_cons]
      rw [take_append_le n t l₂ (by simpa using h)]

lemma readU32LE_append (buf extra : List Nat) (h : 4 ≤ buf.length) :
    readU32LE (buf ++ extra) = readU32LE buf := by
  obtain ⟨b0, b1, b2, b3, t, rfl⟩ : ∃ b0 b1 b2 b3 t, buf = b0 :: b1 :: b2 :: b3 :: t := by
    match buf with
    | b0 :: b1 :: b2 :: b3 :: t => exact ⟨b0, b1, b2, b3, t, rfl⟩
    | [] => simp at h
    | [a] => simp at h
    | [a, b] => simp at h
    | [a, b, c] => simp at h
  rfl

lemma readU32LE_u32 (n : Nat) (rest : List Nat) (h : n < 4294967296) :
    readU32LE (u32le n ++ rest) = n := by
  show n % 256 + n / 256 % 256 * 256 + n / 65536 % 256 * 65536 + n / 16777216 % 256 * 16777216 = n
  omega

lemma decodeLoopF_stop (f : Nat) (buf : List Nat) (h : ¬ 8 ≤ buf.length) :
    decodeLoopF f buf = ([], buf) := by
  cases f with
  | zero => rfl
  | succ k => simp [decodeLoopF, h]

lemma decodeLoopF_incomplete (f : Nat) (buf : List Nat) (h8 : 8 ≤ buf.length)
    (h : buf.length < 8 + readU32LE (buf.drop 4)) :
    decodeLoopF f buf = ([], buf) := by
  cases f with
  | zero => rfl
  | succ k => simp [decodeLoopF, h8, h]

lemma decodeLoopF_cons (f : Nat) (buf : List Nat) (h8 : 8 ≤ buf.length)
    (h : ¬ buf.length < 8 + readU32LE (buf.drop 4)) :
    decodeLoopF (f + 1) buf =
      ((readU32LE buf, (buf.drop 8).take (readU32LE (buf.drop 4))) ::
          (decodeLoopF f (buf.drop (8 + readU32LE (buf.drop 4)))).1,
        (decodeLoopF f (buf.drop (8 + readU32LE (buf.drop 4)))).2) := by
  simp [decodeLoopF, h8, h]

lemma decodeLoopF_fuel : ∀ (f g : Nat) (buf : List Nat), buf.length ≤ f → buf.length ≤ g →
    decodeLoopF f buf = decodeLoopF g buf := by
  intro f
  induction f with
  | zero =>
    intro g buf hf _
    rw [decodeLoopF_stop 0 buf (by omega), decodeLoopF_stop g buf (by omega)]
  | succ n ih =>
    intro g buf hf hg
    by_cases h8 : 8 ≤ buf.length
    · by_cases hc : buf.length < 8 + readU32LE (buf.drop 4)
      · rw [decodeLoopF_incomplete _ _ h8 hc, decodeLoopF_incomplete _ _ h8 hc]
      · cases g with
        | zero => omega
        | succ m =>
          rw [decodeLoopF_cons n buf h8 hc, decodeLoopF_cons m buf h8 hc]
          have hlen1 : (buf.drop (8 + readU32LE (buf.drop 4))).length ≤ n := by
            simp only [List.length_drop]; omega
          have hlen2 : (buf.drop (8 + readU32LE (buf.drop 4))).length ≤ m := by
            simp only [List.length_drop]; omega
          rw [ih _ _ hlen1 hlen2]
    · rw [decodeLoopF_stop _ _ h8, decodeLoopF_stop _ _ h8]

@[simp] lemma decodeLoop_nil : decodeLoop [] = ([], []) := rfl

lemma decodeLoop_eq_short (buf : List Nat) (h : buf.length < 8) :
    decodeLoop buf = ([], buf) :=
  decodeLoopF_stop _ _ (by omega)

lemma decodeLoop_eq_incomplete (buf : List Nat) (h8 : 8 ≤ buf.length)
    (h : buf.length < 8 + readU32LE (buf.drop 4)) :
    decodeLoop buf = ([], buf) :=
  decodeLoopF_incomplete _ _ h8 h

lemma decodeLoop_eq_cons (buf : List Nat) (h8 : 8 ≤ buf.length)
    (h : ¬ buf.length < 8 + readU32LE (buf.drop 4)) :
    decodeLoop buf =
      ((readU32LE buf, (buf.drop 8).take (readU32LE (buf.drop 4))) ::
          (decodeLoop (buf.drop (8 + readU32LE (buf.drop 4)))).1,
        (decodeLoop (buf.drop (8 + readU32LE (buf.drop 4)))).2) := by
  unfold decodeLoop
  have hrl : (buf.drop (8 + readU32LE (buf.drop 4))).length ≤ buf.length - 8 := by
    simp only [List.length_drop]; omega
  cases hb : buf.length with
  | zero => omega
  | succ k =>
    rw [decodeLoopF_cons k buf h8 h]
    rw [decodeLoopF_fuel k (buf.drop (8 + readU32LE (buf.drop 4))).length
      (buf.drop (8 + readU32LE (buf.drop 4))) (by omega) (by omega)]

lemma decode_encode_cons (op : Nat) (p rest : List Nat) (hop : op < 4294967296)
    (hp : p.length < 4294967296) :
    decodeLoop (encode op p ++ rest) = ((op, p) :: (decodeLoop rest).1, (decodeLoop rest).2) := by
  have hlen : (encode op p ++ rest).length = 8 + p.length + rest.length := by
    simp [encode, u32le]; omega
  have hr4 : readU32LE ((encode op p ++ rest).drop 4) = p.length := by
    have hd : (encode op p ++ rest).drop 4 = u32le p.length ++ (p ++ rest) := rfl
    rw [hd, readU32LE_u32 _ _ hp]
  have hr0 : readU32LE (encode op p ++ rest) = op := by
    have hd : encode op p ++ rest = u32le op ++ (u32le p.length ++ (p ++ rest)) := rfl
    rw [hd, readU32LE_u32 _ _ hop]
  have h8 : 8 ≤ (encode op p ++ rest).length := by omega
  have hcomp : ¬ (encode op p ++ rest).length < 8 + readU32LE ((encode op p ++ rest).drop 4) := by
    rw [hr4]; omega
  rw [decodeLoop_eq_cons _ h8 hcomp, hr0, hr4]
  have hpay : ((encode op p ++ rest).drop 8).take p.length = p := by
    have hd : (encode op p ++ rest).drop 8 = p ++ rest := rfl
    rw [hd, take_len_append]
  have hrest : (encode op p ++ rest).drop (8 + p.length) = rest := by
    have hd : (encode op p ++ rest).drop (8 + p.length) =
        ((encode op p ++ rest).drop 8).drop p.length := by
      rw [List.drop_drop]
    have hd8 : (encode op p ++ rest).drop 8 = p ++ rest := rfl
    rw [hd, hd8, drop_len_append]
  rw [hpay, hrest]

lemma decode_concatEnc (frames : List (Nat × List Nat)) (h : framesValid frames = true) :
    decodeLoop (concatEnc frames) = (frames, []) := by
  induction frames with
  | nil => rfl
  | cons f t ih =>
    simp only [framesValid, List.all_cons, Bool.and_eq_true, decide_eq_true_eq] at h
    obtain ⟨⟨h1, h2⟩, h3⟩ := h
    rw [concatEnc, decode_encode_cons f.1 f.2 (concatEnc t) h1 h2, ih h3]

lemma decode_append_bounded : ∀ (N : Nat) (buf extra : List Nat), buf.length ≤ N →
    decodeLoop (buf ++ extra) =
      ((decodeLoop buf).1 ++ (decodeLoop ((decodeLoop buf).2 ++ extra)).1,
        (decodeLoop ((decodeLoop buf).2 ++ extra)).2) := by
  intro N
  induction N with
  | zero =>
    intro buf extra h
    have hb : buf = [] := List.length_eq_zero.mp (by omega)
    subst hb
    simp
  | succ n ih =>
    intro buf extra h
    by_cases h8 : 8 ≤ buf.length
    · by_cases hc : buf.length < 8 + readU32LE (buf.drop 4)
      · rw [decodeLoop_eq_incomplete buf h8 hc]
        simp
      · have h4 : 4 ≤ buf.length := by omega
        have hd4 : (buf ++ extra).drop 4 = buf.drop 4 ++ extra := drop_append_le 4 buf extra h4
        have hlenr : readU32LE ((buf ++ extra).drop 4) = readU32LE (buf.drop 4) := by
          rw [hd4, readU32LE_append _ _ (by simp only [List.length_drop]; omega)]
        have h8' : 8 ≤ (buf ++ extra).length := by simp only [List.length_append]; omega
        have hc' : ¬ (buf ++ extra).length < 8 + readU32LE ((buf ++ extra).drop 4) := by
          rw [hlenr]; simp only [List.length_append]; omega
        rw [decodeLoop_eq_cons buf h8 hc, decodeLoop_eq_cons (buf ++ extra) h8' hc']
        have hop : readU32LE (buf ++ extra) = readU32LE buf := readU32LE_append _ _ (by omega)
        have hpay : ((buf ++ extra).drop 8).take (readU32LE ((buf ++ extra).drop 4)) =
            (buf.drop 8).take (readU32LE (buf.drop 4)) := by
          rw [hlenr, drop_append_le 8 buf extra h8,
            take_append_le _ _ _ (by simp only [List.length_drop]; omega)]
        have hrest : (buf ++ extra).drop (8 + readU32LE ((buf ++ extra).drop 4)) =
            buf.drop (8 + readU32LE (buf.drop 4)) ++ extra := by
          rw [hlenr, drop_append_le _ buf extra (by omega)]
        rw [hop, hpay, hrest]
        have hlen_rest : (buf.drop (8 + readU32LE (buf.drop 4))).length ≤ n := by
          simp only [List.length_drop]; omega
        rw [ih _ extra hlen_rest]
        simp
    · rw [decodeLoop_eq_short buf (by omega)]
      simp

lemma decode_append (buf extra : List Nat) :
    decodeLoop (buf ++ extra) =
      ((decodeLoop buf).1 ++ (decodeLoop ((decodeLoop buf).2 ++ extra)).1,
        (decodeLoop ((decodeLoop buf).2 ++ extra)).2) :=
  decode_append_bounded buf.length buf extra (Nat.le_refl _)

lemma decodeLoop_residual_bounded : ∀ (N : Nat) (buf : List Nat), buf.length ≤ N →
    decodeLoop (decodeLoop buf).2 = ([], (decodeLoop buf).2) := by
  intro N
  induction N with
  | zero =>
    intro buf h
    have hb : buf = [] := List.length_eq_zero.mp (by omega)
    subst hb
    simp
  | succ n ih =>
    intro buf h
    by_cases h8 : 8 ≤ buf.length
    · by_cases hc : buf.length < 8 + readU32LE (buf.drop 4)
      · rw [decodeLoop_eq_incomplete buf h8 hc]
        exact decodeLoop_eq_incomplete buf h8 hc
      · rw [decodeLoop_eq_cons buf h8 hc]
        exact ih _ (by simp only [List.length_drop]; omega)
    · rw [decodeLoop_eq_short buf (by omega)]
      exact decodeLoop_eq_short buf (by omega)

lemma decodeLoop_residual (buf : List Nat) :
    decodeLoop (decodeLoop buf).2 = ([], (decodeLoop buf).2) :=
  decodeLoop_residual_bounded buf.length buf (Nat.le_refl _)

lemma feedChunks_spec : ∀ (chunks : List (List Nat)) (acc : List (Nat × List Nat)) (buf : List Nat),
    decodeLoop buf = ([], buf) →
    feedChunks chunks (acc, buf) =
      (acc ++ (decodeLoop (buf ++ joinChunks chunks)).1, (decodeLoop (buf ++ joinChunks chunks)).2) := by
  intro chunks
  induction chunks with
  | nil =>
    intro acc buf hres
    simp [feedChunks, joinChunks, hres]
  | cons ch t ih =>
    intro acc buf hres
    rw [feedChunks, feedChunk]
    rw [ih (acc ++ (decodeLoop (buf ++ ch)).1) (decodeLoop (buf ++ ch)).2
      (decodeLoop_residual (buf ++ ch))]
    have hjoin : buf ++ joinChunks (ch :: t) = (buf ++ ch) ++ joinChunks t := by
      rw [joinChunks, List.append_assoc]
    rw [hjoin, decode_append (buf ++ ch) (joinChunks t)]
    simp [List.append_assoc]

/-! ### Claim C1: encode/decode round trip -/

/-- C1.  For every uint32 opcode and payload (the UTF-8 JSON serialization of
the sent value, whose byte length fits in 32 bits as writeUInt32LE demands),
running the streaming frame decoder of setupSocketHandlers on the exact bytes
produced by DiscordIPC.send yields the single frame (opcode, payload) and an
empty remainder buffer. -/
theorem c1_encode_decode_round_trip (op : Nat) (payload : List Nat)
    (hop : op < 4294967296) (hlen : payload.length < 4294967296) :
    decodeLoop (encode op payload) = ([(op, payload)], []) := by
  have h := decode_encode_cons op payload [] hop hlen
  rw [List.append_nil] at h
  rw [h, decodeLoop_nil]

/-- Witness for C1 at a concrete frame: opcode 1 with the payload bytes of the
JSON text of a small object. -/
theorem c1_encode_decode_round_trip_witness :
    (1 : Nat) < 4294967296 ∧
      decodeLoop (encode 1 [123, 34, 118, 34, 58, 49, 125]) =
        ([(1, [123, 34, 118, 34, 58, 49, 125])], []) :=
  ⟨by decide, c1_encode_decode_round_trip 1 [123, 34, 118, 34, 58, 49, 125]
    (by decide) (by decide)⟩

/-! ### Claim C2: chunk-boundary independence of the streaming decoder -/

/-- C2.  Splitting the concatenated bytes of any valid frame sequence into
chunks at arbitrary byte offsets and feeding the chunks in order yields exactly
the original frames in order with an empty final buffer; moreover, whenever
fewer than 8 header bytes, or fewer than the announced payload length of bytes,
are buffered, the decode loop consumes nothing and preserves the buffer
verbatim. -/
theorem c2_chunked_decode (frames : List (Nat × List Nat)) (chunks : List (List Nat))
    (hvalid : framesValid frames = true)
    (hsplit : joinChunks chunks = concatEnc frames) :
    feedChunks chunks ([], []) = (frames, []) ∧
      (∀ buf : List Nat, buf.length < 8 → decodeLoop buf = ([], buf)) ∧
      (∀ buf : List Nat, 8 ≤ buf.length → buf.length < 8 + readU32LE (buf.drop 4) →
        decodeLoop buf = ([], buf)) := by
  refine ⟨?_, fun buf h => decodeLoop_eq_short buf h,
    fun buf h8 h => decodeLoop_eq_incomplete buf h8 h⟩
  rw [feedChunks_spec chunks [] [] decodeLoop_nil]
  simp only [List.nil_append, hsplit]
  rw [decode_concatEnc frames hvalid]

/-- Witness for C2: two frames whose bytes are split at offsets that cut both
the header and the payload of the first frame. -/
theorem c2_chunked_decode_witness :
    framesValid [(1, [104, 105]), (7, [])] = true ∧
      feedChunks [[1, 0, 0], [0, 2, 0], [0, 0, 104, 105, 7, 0], [0, 0, 0, 0, 0, 0]] ([], []) =
        ([(1, [104, 105]), (7, [])], []) :=
  ⟨by decide,
    (c2_chunked_decode [(1, [104, 105]), (7, [])]
      [[1, 0, 0], [0, 2, 0], [0, 0, 104, 105, 7, 0], [0, 0, 0, 0, 0, 0]]
      (by decide) (by decide)).1⟩

/-! ### Session data model

The DiscordIPC class state.  JSON values passed through send are opaque to the
engine, so a queued payload is either an opaque token or an outbound command
object (the {cmd, nonce, args} built by sendCommand).  The pendingResponses
Map stores one resolver closure per nonce; every closure created by
sendCommand has the same shape, so the model keeps only the keys, plus a list
of nonces whose per-request timeout timer is scheduled and not yet cleared or
fired, plus a ghost list of nonces whose caller promise has settled (a JS
Promise settles at most once; later resolve/reject calls are no-ops). -/

/-- Outcome of a settlement call observed by a sendCommand caller. -/
inductive Outcome
  | resolved
  | rejectedRemote
  | rejectedTimeout
  | rejectedSendError
deriving Repr, DecidableEq

/-- An outbound command object {cmd, nonce, args}; args is opaque. -/
structure CmdMsg where
  cmd : String
  nonce : String
  args : Nat
deriving Repr, DecidableEq

/-- A value handed to DiscordIPC.send. -/
inductive JsData
  | raw : Nat → JsData
  | command : CmdMsg → JsData
deriving Repr, DecidableEq

/-- Observable events: emitter events (payloads elided, only the event name
matters to the claims), calls to this.log (printing is gated on the debug flag
inside log; the call itself is recorded), socket writes of a framed message,
and promise settlements of correlated commands. -/
inductive Ev
  | emitted (name : String)
  | logged (level : String)
  | wrote (opcode : Nat) (d : JsData)
  | settled (nonce : String) (o : Outcome)
deriving Repr, DecidableEq

/-- The data.message sub-object of an inbound message, when the data field is
present. -/
structure MsgData where
  message : Option String
deriving Repr, DecidableEq

/-- A parsed inbound JSON message; absent fields are none. -/
structure Msg where
  nonce : Option String
  cmd : Option String
  evt : Option String
  data : Option MsgData
deriving Repr, DecidableEq

/-- The mutable state of a DiscordIPC instance. -/
structure Client where
  clientId : Option String
  debug : Bool
  autoReconnect : Bool
  reconnectDelay : Nat
  maxReconnectAttempts : Nat
  socket : Bool
  connected : Bool
  authenticated : Bool
  reconnectAttempts : Nat
  currentActivity : Option Nat
  messageQueue : List (Nat × JsData)
  pendingResponses : List String
  armedTimers : List String
  settledPromises : List String
  heartbeat : Bool
deriving Repr, DecidableEq

/-- The constructor: note the JS falsiness defaults (reconnectDelay 0 would be
replaced by 5000, autoReconnect defaults to true unless literally false). -/
def mkClient (clientId : Option String) (debug : Option Bool) (autoReconnect : Option Bool)
    (reconnectDelay : Option Nat) (maxReconnectAttempts : Option Nat) : Client :=
  { clientId := clientId
    debug := debug.getD false
    autoReconnect := match autoReconnect with
      | some false => false
      | _ => true
    reconnectDelay := match reconnectDelay with
      | none => 5000
      | some 0 => 5000
      | some d => d
    maxReconnectAttempts := match maxReconnectAttempts with
      | none => 10
      | some 0 => 10
      | some m => m
    socket := false
    connected := false
    authenticated := false
    reconnectAttempts := 0
    currentActivity := none
    messageQueue := []
    pendingResponses := []
    armedTimers := []
    settledPromises := []
    heartbeat := false }

/-- A freshly constructed client with a client id, used by concrete runs. -/
def initClient : Client := mkClient (some "client123") none none none none

/-- JS truthiness of a possibly-absent string field (undefined and the empty
string are falsy). -/
def truthyStr : Option String → Bool
  | none => false
  | some s => !(s == "")

/-- One resolve/reject call on the promise registered under the given nonce:
the call settles the promise and is observable only if the promise has not
settled before (JS Promise semantics). -/
def settleOnce (c : Client) (n : String) (o : Outcome) : Client × List Ev :=
  if n ∈ c.settledPromises then (c, [])
  else ({ c with settledPromises := n :: c.settledPromises }, [Ev.settled n o])

/-- DiscordIPC.send.  Not connected with auto-reconnect on: append to the
message queue.  Not connected otherwise: throw.  Connected: write the encoded
frame to the socket and log. -/
def send (c : Client) (opcode : Nat) (d : JsData) : Except String (Client × List Ev) :=
  if !c.connected then
    if c.autoReconnect then
      Except.ok ({ c with messageQueue := c.messageQueue ++ [(opcode, d)] }, [])
    else
      Except.error "Not connected to Discord"
  else
    Except.ok (c, [Ev.wrote opcode d, Ev.logged "info"])

/-- A consumer submitting several messages through send in order (stopping if a
send throws). -/
def sendMany (c : Client) : List (Nat × JsData) → Except String (Client × List Ev)
  | [] => Except.ok (c, [])
  | (op, d) :: rest =>
    match send c op d with
    | Except.error e => Except.error e
    | Except.ok (c1, evs) =>
      match sendMany c1 rest with
      | Except.error e => Except.error e
      | Except.ok (c2, evs2) => Except.ok (c2, evs ++ evs2)

/-- DiscordIPC.processQueue, fuel-indexed: while the queue is nonempty, shift
the head entry and send it.  The result is none when the fuel runs out (the
source loop does not terminate when disconnected with auto-reconnect on, since
send then re-queues the shifted entry at the tail); otherwise the final state,
the events, and the error if a send threw (the exception propagates and the
shifted entry is lost). -/
def processQueue : Nat → Client → Option (Client × List Ev × Option String)
  | 0, _ => none
  | fuel + 1, c =>
    match c.messageQueue with
    | [] => some (c, [], none)
    | (op, d) :: rest =>
      let c1 := { c with messageQueue := rest }
      match send c1 op d with
      | Except.error e => some (c1, [], some e)
      | Except.ok (c2, evs) =>
        match processQueue fuel c2 with
        | none => none
        | some (c3, evs2, r) => some (c3, evs ++ evs2, r)

/-- The events produced by draining a queue while connected: one socket write
and one log call per entry, in queue order. -/
def queueWrites : List (Nat × JsData) → List Ev
  | [] => []
  | (op, d) :: t => Ev.wrote op d :: Ev.logged "info" :: queueWrites t

/-! ### Substring search (String.prototype.includes) -/

/-- Whether the first character list is an initial segment of the second. -/
def takesAt : List Char → List Char → Bool
  | [], _ => true
  | _ :: _, [] => false
  | a :: as, b :: bs => a == b && takesAt as bs

/-- Whether the first character list occurs contiguously inside the second. -/
def occursIn (sub : List Char) : List Char → Bool
  | [] => takesAt sub []
  | c :: t => takesAt sub (c :: t) || occursIn sub t

/-- String.prototype.includes, used by authenticate on error messages. -/
def includesStr (s sub : String) : Bool := occursIn sub.toList s.toList

/-! ### Inbound message handling -/

/-- DiscordIPC.handleDispatch: READY emits ready, ERROR emits an error built
from data.message (reading .message of an absent data object raises a
TypeError, which the try/catch of handleMessage turns into an error-level log),
anything else emits a generic dispatch notification. -/
def handleDispatch (c : Client) (m : Msg) : Client × List Ev :=
  if m.evt == some "READY" then (c, [Ev.emitted "ready"])
  else if m.evt == some "ERROR" then
    match m.data with
    | none => (c, [Ev.logged "error"])
    | some _ => (c, [Ev.emitted "error"])
  else (c, [Ev.emitted "dispatch"])

/-- The body of DiscordIPC.handleMessage after a successful JSON.parse: log the
message; if it carries a truthy nonce present in pendingResponses, delete the
entry and run the stored resolver (clear the timeout, then reject with
data.message on an ERROR event else resolve; reading .message of an absent
data object raises inside the resolver and the surrounding catch logs it, the
entry and timer already being gone and the promise never settling); otherwise
branch on cmd: DISPATCH goes to handleDispatch, anything else emits the
generic message notification. -/
def handleMessageParsed (c : Client) (m : Msg) : Client × List Ev :=
  if truthyStr m.nonce = true ∧ m.nonce.getD "" ∈ c.pendingResponses then
    let n := m.nonce.getD ""
    let c1 := { c with pendingResponses := c.pendingResponses.erase n }
    let c2 := { c1 with armedTimers := c1.armedTimers.erase n }
    if m.evt == some "ERROR" then
      match m.data with
      | none => (c2, [Ev.logged "info", Ev.logged "error"])
      | some _ =>
        let r := settleOnce c2 n Outcome.rejectedRemote
        (r.1, Ev.logged "info" :: r.2)
    else
      let r := settleOnce c2 n Outcome.resolved
      (r.1, Ev.logged "info" :: r.2)
  else
    match m.cmd with
    | some "DISPATCH" =>
      let r := handleDispatch c m
      (r.1, Ev.logged "info" :: r.2)
    | _ => (c, [Ev.logged "info", Ev.emitted "message"])

/-- DiscordIPC.handleMessage on one decoded frame.  JSON.parse is a platform
function and is passed in abstractly; a parse failure is caught and logged at
error level, the frame is dropped and the state is untouched. -/
def handleMessage (parseJson : List Nat → Option Msg) (c : Client) (opcode : Nat)
    (payload : List Nat) : Client × List Ev :=
  match parseJson payload with
  | none => (c, [Ev.logged "error"])
  | some m => handleMessageParsed c m

/-- Handling a sequence of decoded frames in arrival order, as the decode loop
of setupSocketHandlers does. -/
def handleFrames (parseJson : List Nat → Option Msg) (c : Client) :
    List (Nat × List Nat) → Client × List Ev
  | [] => (c, [])
  | (op, p) :: rest =>
    let r1 := handleMessage parseJson c op p
    let r2 := handleFrames parseJson r1.1 rest
    (r2.1, r1.2 ++ r2.2)

/-! ### Request correlator, disconnect, reconnect -/

/-- The synchronous part of DiscordIPC.sendCommand: arm the timeout timer,
register the pending entry under the fresh nonce, then send the framed
command.  If send throws (disconnected with auto-reconnect off), the promise
executor rejects the caller promise with that error while entry and timer
remain registered. -/
def sendCommandStart (c : Client) (cmd : String) (nonce : String) (args : Nat) :
    Client × List Ev :=
  let c1 := { c with armedTimers := nonce :: c.armedTimers }
  let c2 := if nonce ∈ c1.pendingResponses then c1
    else { c1 with pendingResponses := nonce :: c1.pendingResponses }
  match send c2 1 (JsData.command ⟨cmd, nonce, args⟩) with
  | Except.ok (c3, evs) => (c3, evs)
  | Except.error _ => settleOnce c2 nonce Outcome.rejectedSendError

/-- The per-request timeout callback of sendCommand firing.  A timer only
fires if it is still scheduled (clearTimeout cancels it); the callback deletes
the pending entry and rejects with the timeout error (a no-op on an
already-settled promise). -/
def timeoutFire (c : Client) (nonce : String) : Client × List Ev :=
  if nonce ∈ c.armedTimers then
    let c1 := { c with armedTimers := c.armedTimers.erase nonce,
                       pendingResponses := c.pendingResponses.erase nonce }
    settleOnce c1 nonce Outcome.rejectedTimeout
  else (c, [])

/-- DiscordIPC.disconnect: disable auto-reconnect, stop the heartbeat timer,
end and drop the socket, reset the flags, clear the pending map and the
queue, emit disconnect and log.  The pending entries are cleared without any
reject call, and the per-request timeout timers are not cancelled. -/
def disconnect (c : Client) : Client × List Ev :=
  ({ c with autoReconnect := false, heartbeat := false, socket := false,
            connected := false, authenticated := false,
            pendingResponses := [], messageQueue := [] },
    [Ev.emitted "disconnect", Ev.logged "info"])

/-- DiscordIPC.scheduleReconnect: increment reconnectAttempts, then compute the
delay min(reconnectDelay * 2^(attempts-1), 30000) for the scheduled retry. -/
def scheduleReconnect (c : Client) : Client × Nat :=
  let c1 := { c with reconnectAttempts := c.reconnectAttempts + 1 }
  (c1, min (c1.reconnectDelay * 2 ^ (c1.reconnectAttempts - 1)) 30000)

/-- The delays produced by a run of consecutive scheduleReconnect calls. -/
def reconnectDelays (c : Client) : Nat → List Nat
  | 0 => []
  | n + 1 =>
    let r := scheduleReconnect c
    r.2 :: reconnectDelays r.1 n

/-! ### Authentication and activity -/

/-- The continuation of DiscordIPC.authenticate on the no-token path, applied
to the outcome of the awaited AUTHORIZE command (ok response, or the message
of the rejection: a remote error message or the timeout message
"Command AUTHORIZE timed out").  On failure it logs a warning and rethrows if
the message mentions "Invalid Client ID" or "Unknown Application"; otherwise
it logs and continues.  The continue path sets authenticated, emits
authenticated and drains the queue. -/
def authenticateNoToken (c : Client) (outcome : Except String Msg) (fuel : Nat) :
    Option (Client × List Ev × Option String) :=
  match outcome with
  | Except.ok _ =>
    let c1 := { c with authenticated := true }
    match processQueue fuel c1 with
    | none => none
    | some (c2, evs2, r) =>
      some (c2, Ev.logged "info" :: Ev.emitted "authenticated" :: evs2, r)
  | Except.error emsg =>
    if includesStr emsg "Invalid Client ID" || includesStr emsg "Unknown Application" then
      some (c, [Ev.logged "warn"],
        some ("Invalid Client ID: " ++ c.clientId.getD "undefined" ++
          ". Please check your Discord Application ID."))
    else
      let c1 := { c with authenticated := true }
      match processQueue fuel c1 with
      | none => none
      | some (c2, evs2, r) =>
        some (c2, Ev.logged "warn" :: Ev.logged "warn" :: Ev.emitted "authenticated" :: evs2, r)

/-- The continuation of DiscordIPC.setActivity after processActivity, applied
to the outcome of the awaited SET_ACTIVITY command: on success store the
processed activity and emit activitySet; on rejection log at error level and
rethrow, leaving the state untouched. -/
def setActivityResume (c : Client) (processed : Nat) (outcome : Except String Msg) :
    Client × List Ev × Option String :=
  match outcome with
  | Except.ok _ =>
    ({ c with currentActivity := some processed }, [Ev.emitted "activitySet"], none)
  | Except.error emsg => (c, [Ev.logged "error"], some emsg)

/-! ### Event-loop traces for the correlator claims -/

/-- One event-loop turn relevant to the request correlator: the synchronous
part of a sendCommand call, one decoded inbound frame (none when its payload
failed to parse), a per-request timeout timer firing, or a disconnect call. -/
inductive Act
  | register (cmd : String) (nonce : String) (args : Nat)
  | inbound (pm : Option Msg)
  | timerFire (nonce : String)
  | discon
deriving Repr, DecidableEq

/-- The state transition of one event-loop turn. -/
def step (c : Client) : Act → Client × List Ev
  | Act.register cmd nonce args => sendCommandStart c cmd nonce args
  | Act.inbound none => (c, [Ev.logged "error"])
  | Act.inbound (some m) => handleMessageParsed c m
  | Act.timerFire n => timeoutFire c n
  | Act.discon => disconnect c

/-- Running a trace of event-loop turns, accumulating the events. -/
def runTrace (c : Client) : List Act → Client × List Ev
  | [] => (c, [])
  | a :: t =>
    let r1 := step c a
    let r2 := runTrace r1.1 t
    (r2.1, r1.2 ++ r2.2)

/-- The settlement outcomes recorded for a given nonce in an event list. -/
def settlesOf (evs : List Ev) (n : String) : List Outcome :=
  evs.filterMap fun e => match e with
    | Ev.settled n2 o => if n2 = n then some o else none
    | _ => none

/-- The nonces registered by the sendCommand turns of a trace. -/
def registersOf (t : List Act) : List String :=
  t.filterMap fun a => match a with
    | Act.register _ n _ => some n
    | _ => none

/-- An inbound ERROR response aimed at a pending nonce must carry a data
object; otherwise the resolver raises before settling (the flaw behind the
correction of the correlator claim). -/
def goodActs (t : List Act) : Bool :=
  t.all fun a => match a with
    | Act.inbound (some m) =>
      !(m.evt == some "ERROR" && truthyStr m.nonce && m.data == none)
    | _ => true

/-- Nonce freshness along a trace: every registered nonce is new relative to
the accumulator and to all earlier registrations (crypto.randomUUID). -/
def freshActs (regs : List String) : List Act → Bool
  | [] => true
  | Act.register _ n _ :: tl => !(decide (n ∈ regs)) && freshActs (n :: regs) tl
  | _ :: tl => freshActs regs tl

/-- The registered-nonce accumulator after a trace. -/
def regsAfter (regs : List String) : List Act → List String
  | [] => regs
  | Act.register _ n _ :: tl => regsAfter (n :: regs) tl
  | _ :: tl => regsAfter regs tl

/-- Whether an event is a promise settlement. -/
def isSettleEv : Ev → Bool
  | Ev.settled _ _ => true
  | _ => false

/-! ### Claim C5: reconnect backoff -/

/-- C5.  With reconnectDelay 1000 the first six scheduled delays are exactly
1000, 2000, 4000, 8000, 16000, 30000; in general scheduleReconnect increments
reconnectAttempts first and returns min(reconnectDelay * 2^(attempts-1),
30000) computed from the incremented counter. -/
theorem c5_reconnect_backoff :
    reconnectDelays (mkClient (some "client123") none none (some 1000) none) 6 =
      [1000, 2000, 4000, 8000, 16000, 30000] ∧
    ∀ c : Client,
      (scheduleReconnect c).1.reconnectAttempts = c.reconnectAttempts + 1 ∧
      (scheduleReconnect c).2 =
        min (c.reconnectDelay * 2 ^ (c.reconnectAttempts + 1 - 1)) 30000 :=
  ⟨by decide, fun _ => ⟨rfl, rfl⟩⟩

/-! ### Claim C10: setActivity on failure and success -/

/-- C10.  If the SET_ACTIVITY command rejects, the rejection propagates to the
caller, currentActivity keeps its previous value and no activitySet
notification is emitted; on success currentActivity becomes the processed
activity and activitySet is emitted. -/
theorem c10_set_activity_state (c : Client) (processed : Nat) (e : String) (m : Msg) :
    setActivityResume c processed (Except.error e) = (c, [Ev.logged "error"], some e) ∧
    setActivityResume c processed (Except.ok m) =
      ({ c with currentActivity := some processed }, [Ev.emitted "activitySet"], none) :=
  ⟨rfl, rfl⟩

/-! ### Claim C7: failure mid-flush -/

/-- C7.  When a send during a queue flush fails (it throws, which the source
only does while disconnected with auto-reconnect off, and the loop shifts
before sending, so this is the first entry), the flush stops consuming, every
entry after the failing one stays queued in its original order, and the flush
terminates by propagating the error, for any sufficient fuel. -/
theorem c7_flush_stops_on_failure (c : Client) (op : Nat) (d : JsData)
    (rest : List (Nat × JsData)) (fuel : Nat)
    (hconn : c.connected = false) (hauto : c.autoReconnect = false)
    (hq : c.messageQueue = (op, d) :: rest) :
    processQueue (fuel + 1) c =
      some ({ c with messageQueue := rest }, [], some "Not connected to Discord") := by
  simp [processQueue, hq, send, hconn, hauto]

/-- Witness for C7 at a concrete two-entry queue: the second entry survives the
failed flush. -/
theorem c7_flush_stops_on_failure_witness :
    processQueue 4
        { initClient with
          autoReconnect := false,
          messageQueue := [(2, JsData.raw 5), (3, JsData.raw 6)] } =
      some ({ initClient with autoReconnect := false, messageQueue := [(3, JsData.raw 6)] },
        [], some "Not connected to Discord") :=
  c7_flush_stops_on_failure
    { initClient with
      autoReconnect := false,
      messageQueue := [(2, JsData.raw 5), (3, JsData.raw 6)] }
    2 (JsData.raw 5) [(3, JsData.raw 6)] 3 rfl rfl rfl

/-! ### Queue drain helper -/

lemma processQueue_step_ok (fuel : Nat) (c c2 c3 : Client) (op : Nat) (d : JsData)
    (rest : List (Nat × JsData)) (evs evs2 : List Ev) (r : Option String)
    (hq : c.messageQueue = (op, d) :: rest)
    (hsend : send { c with messageQueue := rest } op d = Except.ok (c2, evs))
    (hrec : processQueue fuel c2 = some (c3, evs2, r)) :
    processQueue (fuel + 1) c = some (c3, evs ++ evs2, r) := by
  simp [processQueue, hq, hsend, hrec]

lemma processQueue_connected : ∀ (q : List (Nat × JsData)) (c : Client),
    c.messageQueue = q → c.connected = true →
    processQueue (q.length + 1) c = some ({ c with messageQueue := [] }, queueWrites q, none) := by
  intro q
  induction q with
  | nil =>
    intro c hq hc
    have hcc : { c with messageQueue := ([] : List (Nat × JsData)) } = c := by
      cases c; simp_all
    rw [hcc]
    simp [processQueue, hq, queueWrites]
  | cons hd tl ih =>
    intro c hq hc
    obtain ⟨op, d⟩ := hd
    have hstep : send { c with messageQueue := tl } op d =
        Except.ok ({ c with messageQueue := tl }, [Ev.wrote op d, Ev.logged "info"]) := by
      simp [send, hc]
    have hrec := ih { c with messageQueue := tl } rfl hc
    have h := processQueue_step_ok (tl.length + 1) c { c with messageQueue := tl }
      { c with messageQueue := [] } op d tl [Ev.wrote op d, Ev.logged "info"]
      (queueWrites tl) none hq hstep hrec
    rw [show ((op, d) :: tl).length + 1 = tl.length + 1 + 1 from rfl, h]
    rfl

lemma sendMany_step_ok (c c1 c2 : Client) (op : Nat) (d : JsData)
    (tl : List (Nat × JsData)) (evs evs2 : List Ev)
    (hsend : send c op d = Except.ok (c1, evs))
    (hrec : sendMany c1 tl = Except.ok (c2, evs2)) :
    sendMany c ((op, d) :: tl) = Except.ok (c2, evs ++ evs2) := by
  simp [sendMany, hsend, hrec]

lemma sendMany_queueing : ∀ (msgs : List (Nat × JsData)) (c : Client),
    c.connected = false → c.autoReconnect = true →
    sendMany c msgs = Except.ok ({ c with messageQueue := c.messageQueue ++ msgs }, []) := by
  intro msgs
  induction msgs with
  | nil =>
    intro c _ _
    have hcc : { c with messageQueue := c.messageQueue ++ ([] : List (Nat × JsData)) } = c := by
      cases c; simp
    rw [hcc]; rfl
  | cons hd tl ih =>
    intro c h1 h2
    obtain ⟨op, d⟩ := hd
    have hstep : send c op d =
        Except.ok ({ c with messageQueue := c.messageQueue ++ [(op, d)] }, []) := by
      simp [send, h1, h2]
    have hrec := ih { c with messageQueue := c.messageQueue ++ [(op, d)] } h1 h2
    have h := sendMany_step_ok c { c with messageQueue := c.messageQueue ++ [(op, d)] }
      _ op d tl [] _ hstep hrec
    rw [h]
    simp [List.append_assoc]

/-! ### Claim C6: FIFO queueing and FIFO drain on authentication -/

/-- C6.  Messages sent while disconnected with auto-reconnect on are appended
to the queue in submission order, and when authentication completes while
connected the queue is drained in exactly that order (one transport write per
entry, queue left empty). -/
theorem c6_queue_fifo (c : Client) (msgs : List (Nat × JsData)) (m : Msg)
    (hconn : c.connected = false) (hauto : c.autoReconnect = true) :
    sendMany c msgs = Except.ok ({ c with messageQueue := c.messageQueue ++ msgs }, []) ∧
    (∀ c2 : Client, c2.connected = true →
      authenticateNoToken c2 (Except.ok m) (c2.messageQueue.length + 1) =
        some ({ c2 with authenticated := true, messageQueue := [] },
          Ev.logged "info" :: Ev.emitted "authenticated" :: queueWrites c2.messageQueue, none)) := by
  refine ⟨sendMany_queueing msgs c hconn hauto, fun c2 hc2 => ?_⟩
  have hdrain := processQueue_connected c2.messageQueue { c2 with authenticated := true } rfl hc2
  simp only [authenticateNoToken]
  rw [hdrain]

/-- Witness for C6: two raw messages queued while disconnected, then drained
after authentication completes on a connected client holding them. -/
theorem c6_queue_fifo_witness :
    sendMany initClient [(2, JsData.raw 5), (3, JsData.raw 6)] =
      Except.ok ({ initClient with messageQueue := [(2, JsData.raw 5), (3, JsData.raw 6)] }, []) ∧
    authenticateNoToken
        { initClient with
          connected := true,
          messageQueue := [(2, JsData.raw 5), (3, JsData.raw 6)] }
        (Except.ok ⟨none, none, none, none⟩) 3 =
      some ({ initClient with connected := true, authenticated := true, messageQueue := [] },
        [Ev.logged "info", Ev.emitted "authenticated", Ev.wrote 2 (JsData.raw 5),
          Ev.logged "info", Ev.wrote 3 (JsData.raw 6), Ev.logged "info"], none) := by
  have h := c6_queue_fifo initClient [(2, JsData.raw 5), (3, JsData.raw 6)]
    ⟨none, none, none, none⟩ rfl rfl
  refine ⟨h.1, ?_⟩
  have h2 := h.2
    { initClient with
      connected := true,
      messageQueue := [(2, JsData.raw 5), (3, JsData.raw 6)] } rfl
  exact h2

/-! ### Claim C8: no-token authenticate (corrected)

The claim says every AUTHORIZE failure is swallowed.  The source rethrows when
the rejection message contains "Invalid Client ID" or "Unknown Application";
only timeouts and other remote errors are swallowed. -/

/-- Counterexample to C8 as stated: when AUTHORIZE is rejected with the remote
message "Unknown Application", authenticate throws the Invalid-Client-ID error
to the caller, the session ends with authenticated still false, no
authenticated notification is emitted and the queue is not flushed. -/
theorem c8_counterexample :
    authenticateNoToken { initClient with connected := true }
        (Except.error "Unknown Application") 1 =
      some ({ initClient with connected := true }, [Ev.logged "warn"],
        some "Invalid Client ID: client123. Please check your Discord Application ID.") ∧
    ({ initClient with connected := true } : Client).authenticated = false := by
  constructor
  · decide
  · rfl

/-- C8 amended.  With no token: if AUTHORIZE succeeds, or fails with a message
mentioning neither "Invalid Client ID" nor "Unknown Application" (the timeout
message "Command AUTHORIZE timed out" is such a message), authenticate logs
and continues: authenticated becomes true, the authenticated notification is
emitted and the queue is flushed; but if the rejection message mentions either
substring, authenticate rethrows and the state is unchanged. -/
theorem c8_authenticate_degrades (c : Client) (e : String) (m : Msg)
    (hconn : c.connected = true)
    (hbad1 : includesStr e "Invalid Client ID" = false)
    (hbad2 : includesStr e "Unknown Application" = false) :
    authenticateNoToken c (Except.ok m) (c.messageQueue.length + 1) =
      some ({ c with authenticated := true, messageQueue := [] },
        Ev.logged "info" :: Ev.emitted "authenticated" :: queueWrites c.messageQueue, none) ∧
    authenticateNoToken c (Except.error e) (c.messageQueue.length + 1) =
      some ({ c with authenticated := true, messageQueue := [] },
        Ev.logged "warn" :: Ev.logged "warn" :: Ev.emitted "authenticated" ::
          queueWrites c.messageQueue, none) ∧
    (∀ e2 : String,
      includesStr e2 "Invalid Client ID" = true ∨ includesStr e2 "Unknown Application" = true →
      authenticateNoToken c (Except.error e2) (c.messageQueue.length + 1) =
        some (c, [Ev.logged "warn"],
          some ("Invalid Client ID: " ++ c.clientId.getD "undefined" ++
            ". Please check your Discord Application ID."))) := by
  have hdrain := processQueue_connected c.messageQueue { c with authenticated := true } rfl hconn
  refine ⟨?_, ?_, ?_⟩
  · simp only [authenticateNoToken]
    rw [hdrain]
  · simp only [authenticateNoToken, hbad1, hbad2, Bool.or_self]
    rw [if_neg (by simp), hdrain]
  · intro e2 h2
    have hcond : (includesStr e2 "Invalid Client ID" || includesStr e2 "Unknown Application")
        = true := by
      rcases h2 with h2 | h2 <;> simp [h2]
    simp only [authenticateNoToken, hcond, if_true]

/-- Witness for C8 amended: a connected client whose AUTHORIZE command timed
out still ends authenticated with the authenticated notification emitted. -/
theorem c8_authenticate_degrades_witness :
    authenticateNoToken { initClient with connected := true }
        (Except.error "Command AUTHORIZE timed out") 1 =
      some ({ initClient with connected := true, authenticated := true },
        [Ev.logged "warn", Ev.logged "warn", Ev.emitted "authenticated"], none) :=
  (c8_authenticate_degrades { initClient with connected := true }
    "Command AUTHORIZE timed out" ⟨none, none, none, none⟩ rfl (by decide) (by decide)).2.1

/-! ### Claim C9: malformed JSON payload (corrected)

The claim says a malformed payload triggers an error event on the consumer.
The source only makes a this.log call at error level (printed only in debug
mode) inside the catch; no error event is emitted. -/

/-- Counterexample to C9 as stated: a frame whose payload fails to parse
produces exactly one error-level log call and no emitted error event. -/
theorem c9_counterexample :
    (handleMessage (fun _ => none) initClient 1 [102]).2 = [Ev.logged "error"] ∧
    Ev.emitted "error" ∉ (handleMessage (fun _ => none) initClient 1 [102]).2 := by
  decide

/-- C9 amended.  A frame whose payload is not valid JSON is dropped without a
crash: the state is unchanged, the only observable effect is an error-level
log call (no event is emitted to the consumer), and processing continues on
the subsequent frames of the stream exactly as if the bad frame were absent. -/
theorem c9_bad_json_dropped (parseJson : List Nat → Option Msg) (c : Client) (op : Nat)
    (p : List Nat) (rest : List (Nat × List Nat)) (hp : parseJson p = none) :
    handleMessage parseJson c op p = (c, [Ev.logged "error"]) ∧
    Ev.emitted "error" ∉ (handleMessage parseJson c op p).2 ∧
    handleFrames parseJson c ((op, p) :: rest) =
      ((handleFrames parseJson c rest).1,
        Ev.logged "error" :: (handleFrames parseJson c rest).2) := by
  have h1 : handleMessage parseJson c op p = (c, [Ev.logged "error"]) := by
    simp [handleMessage, hp]
  refine ⟨h1, by rw [h1]; simp, ?_⟩
  simp [handleFrames, h1]

/-- Witness for C9 amended at a concrete frame and a nonempty continuation. -/
theorem c9_bad_json_dropped_witness :
    handleMessage (fun _ => none) initClient 1 [104, 105] = (initClient, [Ev.logged "error"]) ∧
    handleFrames (fun _ => none) initClient [(1, [104, 105]), (1, [106])] =
      ((handleFrames (fun _ => none) initClient [(1, [106])]).1,
        Ev.logged "error" :: (handleFrames (fun _ => none) initClient [(1, [106])]).2) := by
  have h := c9_bad_json_dropped (fun _ => none) initClient 1 [104, 105] [(1, [106])] rfl
  exact ⟨h.1, h.2.2⟩

/-! ### Claim C4: disconnect (corrected)

The claim says disconnect rejects every outstanding pending request.  The
source clears the pending map without calling any reject; the callers are only
rejected later, when their still-scheduled timeout timers fire. -/

/-- Counterexample to C4 as stated: with one request outstanding, the events
produced by disconnect contain no settlement at all — in particular no
rejection of the pending request. -/
theorem c4_counterexample :
    ({ initClient with
        connected := true,
        pendingResponses := ["n1"], armedTimers := ["n1"] } : Client).pendingResponses =
      ["n1"] ∧
    (disconnect { initClient with
        connected := true,
        pendingResponses := ["n1"], armedTimers := ["n1"] }).2.filter isSettleEv = [] := by
  decide

/-- C4 amended.  disconnect clears the pending map without rejecting its
entries, empties the outbound queue, resets connected and authenticated (and
autoReconnect) to false and emits the disconnect notification; the per-request
timeout timers survive, so each outstanding unsettled request is rejected with
its timeout error when its timer later fires. -/
theorem c4_disconnect_cleanup (c : Client) :
    ((disconnect c).1.pendingResponses = [] ∧
      (disconnect c).1.messageQueue = [] ∧
      (disconnect c).1.connected = false ∧
      (disconnect c).1.authenticated = false ∧
      (disconnect c).1.autoReconnect = false ∧
      Ev.emitted "disconnect" ∈ (disconnect c).2 ∧
      (disconnect c).2.filter isSettleEv = [] ∧
      (disconnect c).1.armedTimers = c.armedTimers ∧
      (disconnect c).1.settledPromises = c.settledPromises) ∧
    (∀ n : String, n ∈ c.armedTimers → n ∉ c.settledPromises →
      (timeoutFire (disconnect c).1 n).2 = [Ev.settled n Outcome.rejectedTimeout]) := by
  refine ⟨⟨rfl, rfl, rfl, rfl, rfl, by simp [disconnect], rfl, rfl, rfl⟩, ?_⟩
  intro n h1 h2
  simp only [disconnect, timeoutFire, settleOnce]
  rw [if_pos h1, if_neg h2]

/-- Witness for C4 amended: after disconnecting a client with one outstanding
request, that request's timer firing rejects it with the timeout error. -/
theorem c4_disconnect_cleanup_witness :
    (timeoutFire
        (disconnect { initClient with
          connected := true,
          pendingResponses := ["n2"], armedTimers := ["n2"] }).1 "n2").2 =
      [Ev.settled "n2" Outcome.rejectedTimeout] :=
  (c4_disconnect_cleanup { initClient with
    connected := true,
    pendingResponses := ["n2"], armedTimers := ["n2"] }).2 "n2" (by decide) (by decide)

/-! ### Correlator invariant for claim C3 -/

/-- The projections of the client state the request correlator owns. -/
structure CorrSt where
  pending : List String
  armed : List String
  settled : List String

/-- The correlator projections of a client. -/
def corrOf (c : Client) : CorrSt :=
  ⟨c.pendingResponses, c.armedTimers, c.settledPromises⟩

/-- The correlator invariant, relative to the set of nonces registered so far
and the events produced so far: the pending map and the timer list have no
duplicate nonces, every pending entry has its timer still scheduled, timers
and settled promises belong to registered nonces, the number of settlement
events for a nonce is 1 exactly when its promise has settled and 0 otherwise,
and every registered nonce still has its timer scheduled unless its promise
has settled. -/
structure CorrInv (regs : List String) (s : CorrSt) (evs : List Ev) : Prop where
  pnodup : s.pending.Nodup
  anodup : s.armed.Nodup
  psub : ∀ n, n ∈ s.pending → n ∈ s.armed
  asub : ∀ n, n ∈ s.armed → n ∈ regs
  gsub : ∀ n, n ∈ s.settled → n ∈ regs
  gcount : ∀ n, (settlesOf evs n).length = if n ∈ s.settled then 1 else 0
  live : ∀ n, n ∈ regs → n ∈ s.armed ∨ n ∈ s.settled

lemma settlesOf_append (a b : List Ev) (n : String) :
    settlesOf (a ++ b) n = settlesOf a n ++ settlesOf b n := by
  simp [settlesOf, List.filterMap_append]

@[simp] lemma settlesOf_nil (n : String) : settlesOf [] n = [] := rfl

@[simp] lemma settlesOf_logged (l : String) (n : String) :
    settlesOf [Ev.logged l] n = [] := rfl

@[simp] lemma settlesOf_emitted (x : String) (n : String) :
    settlesOf [Ev.emitted x] n = [] := rfl

lemma settlesOf_settled (n2 n : String) (o : Outcome) :
    settlesOf [Ev.settled n2 o] n = if n2 = n then [o] else [] := by
  by_cases h : n2 = n <;> simp [settlesOf, h]

/-- Events containing no settlement leave every settlement list unchanged. -/
def noSettles (e : List Ev) : Prop := ∀ m : String, settlesOf e m = []

lemma CorrInv_noop (regs : List String) (s : CorrSt) (evs : List Ev)
    (inv : CorrInv regs s evs) (e : List Ev) (he : noSettles e) :
    CorrInv regs s (evs ++ e) := by
  refine ⟨inv.pnodup, inv.anodup, inv.psub, inv.asub, inv.gsub, ?_, inv.live⟩
  intro n
  rw [settlesOf_append, he n, List.append_nil, inv.gcount]

lemma CorrInv_register (regs pending armed settled : List String) (evs : List Ev)
    (inv : CorrInv regs ⟨pending, armed, settled⟩ evs) (n : String) (hn : n ∉ regs)
    (e : List Ev) (he : noSettles e) :
    CorrInv (n :: regs) ⟨n :: pending, n :: armed, settled⟩ (evs ++ e) := by
  have hna : n ∉ armed := fun h => hn (inv.asub n h)
  have hnp : n ∉ pending := fun h => hna (inv.psub n h)
  have hng : n ∉ settled := fun h => hn (inv.gsub n h)
  refine ⟨List.nodup_cons.mpr ⟨hnp, inv.pnodup⟩, List.nodup_cons.mpr ⟨hna, inv.anodup⟩,
    ?_, ?_, ?_, ?_, ?_⟩
  · intro m hm
    rcases List.mem_cons.mp hm with h | h
    · exact List.mem_cons.mpr (Or.inl h)
    · exact List.mem_cons.mpr (Or.inr (inv.psub m h))
  · intro m hm
    rcases List.mem_cons.mp hm with h | h
    · exact List.mem_cons.mpr (Or.inl h)
    · exact List.mem_cons.mpr (Or.inr (inv.asub m h))
  · intro m hm
    exact List.mem_cons.mpr (Or.inr (inv.gsub m hm))
  · intro m
    rw [settlesOf_append, he m, List.append_nil, inv.gcount]
  · intro m hm
    rcases List.mem_cons.mp hm with h | h
    · exact Or.inl (List.mem_cons.mpr (Or.inl h))
    · rcases inv.live m h with h2 | h2
      · exact Or.inl (List.mem_cons.mpr (Or.inr h2))
      · exact Or.inr h2

lemma CorrInv_register_settle (regs pending armed settled : List String) (evs : List Ev)
    (inv : CorrInv regs ⟨pending, armed, settled⟩ evs) (n : String) (hn : n ∉ regs)
    (o : Outcome) :
    CorrInv (n :: regs) ⟨n :: pending, n :: armed, n :: settled⟩
      (evs ++ [Ev.settled n o]) := by
  have hna : n ∉ armed := fun h => hn (inv.asub n h)
  have hnp : n ∉ pending := fun h => hna (inv.psub n h)
  have hng : n ∉ settled := fun h => hn (inv.gsub n h)
  refine ⟨List.nodup_cons.mpr ⟨hnp, inv.pnodup⟩, List.nodup_cons.mpr ⟨hna, inv.anodup⟩,
    ?_, ?_, ?_, ?_, ?_⟩
  · intro m hm
    rcases List.mem_cons.mp hm with h | h
    · exact List.mem_cons.mpr (Or.inl h)
    · exact List.mem_cons.mpr (Or.inr (inv.psub m h))
  · intro m hm
    rcases List.mem_cons.mp hm with h | h
    · exact List.mem_cons.mpr (Or.inl h)
    · exact List.mem_cons.mpr (Or.inr (inv.asub m h))
  · intro m hm
    rcases List.mem_cons.mp hm with h | h
    · exact List.mem_cons.mpr (Or.inl h)
    · exact List.mem_cons.mpr (Or.inr (inv.gsub m h))
  · intro m
    rw [settlesOf_append, settlesOf_settled]
    by_cases hm : n = m
    · subst hm
      rw [if_pos rfl, List.length_append, inv.gcount, if_neg hng, if_pos (List.mem_cons_self n _)]
      rfl
    · rw [if_neg hm, List.append_nil, inv.gcount]
      have hmem : m ∈ n :: settled ↔ m ∈ settled := by
        rw [List.mem_cons]
        constructor
        · rintro (h | h)
          · exact absurd h.symm hm
          · exact h
        · exact Or.inr
      by_cases hms : m ∈ settled
      · rw [if_pos hms, if_pos (hmem.mpr hms)]
      · rw [if_neg hms, if_neg (fun h => hms (hmem.mp h))]
  · intro m hm
    rcases List.mem_cons.mp hm with h | h
    · exact Or.inl (List.mem_cons.mpr (Or.inl h))
    · rcases inv.live m h with h2 | h2
      · exact Or.inl (List.mem_cons.mpr (Or.inr h2))
      · exact Or.inr (List.mem_cons.mpr (Or.inr h2))

lemma CorrInv_remove_settle (regs pending armed settled : List String) (evs : List Ev)
    (inv : CorrInv regs ⟨pending, armed, settled⟩ evs) (n : String) (ha : n ∈ armed)
    (o : Outcome) :
    CorrInv regs ⟨pending.erase n, armed.erase n,
        if n ∈ settled then settled else n :: settled⟩
      (evs ++ if n ∈ settled then [] else [Ev.settled n o]) := by
  have hreg : n ∈ regs := inv.asub n ha
  refine ⟨inv.pnodup.erase n, inv.anodup.erase n, ?_, ?_, ?_, ?_, ?_⟩
  · intro m hm
    have hmp : m ∈ pending := List.mem_of_mem_erase hm
    have hmn : m ≠ n := (inv.pnodup.mem_erase_iff.mp hm).1
    exact (List.mem_erase_of_ne hmn).mpr (inv.psub m hmp)
  · intro m hm
    exact inv.asub m (List.mem_of_mem_erase hm)
  · intro m hm
    by_cases hg : n ∈ settled
    · rw [if_pos hg] at hm
      exact inv.gsub m hm
    · rw [if_neg hg] at hm
      rcases List.mem_cons.mp hm with h | h
      · exact h ▸ hreg
      · exact inv.gsub m h
  · intro m
    by_cases hg : n ∈ settled
    · rw [if_pos hg, if_pos hg, settlesOf_append, settlesOf_nil, List.append_nil, inv.gcount]
    · rw [if_neg hg, if_neg hg, settlesOf_append, settlesOf_settled]
      by_cases hm : n = m
      · subst hm
        rw [if_pos rfl, List.length_append, inv.gcount, if_neg hg,
          if_pos (List.mem_cons_self n _)]
        rfl
      · rw [if_neg hm, List.append_nil, inv.gcount]
        have hmem : m ∈ n :: settled ↔ m ∈ settled := by
          rw [List.mem_cons]
          constructor
          · rintro (h | h)
            · exact absurd h.symm hm
            · exact h
          · exact Or.inr
        by_cases hms : m ∈ settled
        · rw [if_pos hms, if_pos (hmem.mpr hms)]
        · rw [if_neg hms, if_neg (fun h => hms (hmem.mp h))]
  · intro m hm
    by_cases hmn : m = n
    · subst hmn
      by_cases hg : m ∈ settled
      · rw [if_pos hg]
        exact Or.inr hg
      · rw [if_neg hg]
        exact Or.inr (List.mem_cons_self m _)
    · rcases inv.live m hm with h2 | h2
      · exact Or.inl ((List.mem_erase_of_ne hmn).mpr h2)
      · by_cases hg : n ∈ settled
        · rw [if_pos hg]
          exact Or.inr h2
        · rw [if_neg hg]
          exact Or.inr (List.mem_cons.mpr (Or.inr h2))

lemma CorrInv_clear_pending (regs pending armed settled : List String) (evs : List Ev)
    (inv : CorrInv regs ⟨pending, armed, settled⟩ evs) (e : List Ev) (he : noSettles e) :
    CorrInv regs ⟨[], armed, settled⟩ (evs ++ e) := by
  refine ⟨List.nodup_nil, inv.anodup, ?_, inv.asub, inv.gsub, ?_, inv.live⟩
  · intro m hm
    exact absurd hm (List.not_mem_nil m)
  · intro m
    rw [settlesOf_append, he m, List.append_nil, inv.gcount]

@[simp] lemma settlesOf_cons_logged (l : String) (rest : List Ev) (n : String) :
    settlesOf (Ev.logged l :: rest) n = settlesOf rest n := by
  simp [settlesOf]

@[simp] lemma settlesOf_cons_emitted (x : String) (rest : List Ev) (n : String) :
    settlesOf (Ev.emitted x :: rest) n = settlesOf rest n := by
  simp [settlesOf]

@[simp] lemma settlesOf_cons_wrote (op : Nat) (d : JsData) (rest : List Ev) (n : String) :
    settlesOf (Ev.wrote op d :: rest) n = settlesOf rest n := by
  simp [settlesOf]

lemma CorrInv_congr_evs (regs : List String) (s : CorrSt) (evs1 evs2 : List Ev)
    (h : ∀ m : String, settlesOf evs2 m = settlesOf evs1 m)
    (inv : CorrInv regs s evs1) : CorrInv regs s evs2 := by
  refine ⟨inv.pnodup, inv.anodup, inv.psub, inv.asub, inv.gsub, ?_, inv.live⟩
  intro n
  rw [h n, inv.gcount]

/-- handleDispatch never touches the state and never settles a promise. -/
lemma handleDispatch_noSettles (c : Client) (m : Msg) :
    (handleDispatch c m).1 = c ∧ noSettles (handleDispatch c m).2 := by
  unfold handleDispatch
  by_cases h1 : m.evt == some "READY"
  · simp [h1]
    intro n; rfl
  · by_cases h2 : m.evt == some "ERROR"
    · cases hd : m.data with
      | none => simp [h1, h2]; intro n; rfl
      | some d => simp [h1, h2]; intro n; rfl
    · simp [h1, h2]
      intro n; rfl

/-- When no pending entry matches, handleMessageParsed leaves the state
unchanged and settles nothing. -/
lemma handleMessageParsed_nomatch (c : Client) (m : Msg)
    (hmatch : ¬(truthyStr m.nonce = true ∧ m.nonce.getD "" ∈ c.pendingResponses)) :
    (handleMessageParsed c m).1 = c ∧ noSettles (handleMessageParsed c m).2 := by
  unfold handleMessageParsed
  rw [if_neg hmatch]
  split
  · have hds := handleDispatch_noSettles c m
    exact ⟨hds.1, fun x => by simp [hds.2 x]⟩
  · exact ⟨rfl, fun x => rfl⟩

/-! ### Per-act preservation of the correlator invariant -/

lemma CorrInvStep_register (regs : List String) (c : Client) (evs : List Ev)
    (inv : CorrInv regs (corrOf c) evs) (cmd n : String) (args : Nat) (hn : n ∉ regs) :
    CorrInv (n :: regs) (corrOf (sendCommandStart c cmd n args).1)
      (evs ++ (sendCommandStart c cmd n args).2) := by
  have hna : n ∉ c.armedTimers := fun h => hn (inv.asub n h)
  have hnp : n ∉ c.pendingResponses := fun h => hna (inv.psub n h)
  have hng : n ∉ c.settledPromises := fun h => hn (inv.gsub n h)
  by_cases hcon : c.connected = true
  · have h1 : sendCommandStart c cmd n args =
        ({ c with armedTimers := n :: c.armedTimers,
                  pendingResponses := n :: c.pendingResponses },
          [Ev.wrote 1 (JsData.command ⟨cmd, n, args⟩), Ev.logged "info"]) := by
      simp [sendCommandStart, send, hcon, hnp]
    rw [h1]
    exact CorrInv_register regs _ _ _ evs inv n hn _ (fun m => rfl)
  · rw [Bool.not_eq_true] at hcon
    by_cases hauto : c.autoReconnect = true
    · have h1 : sendCommandStart c cmd n args =
          ({ c with armedTimers := n :: c.armedTimers,
                    pendingResponses := n :: c.pendingResponses,
                    messageQueue := c.messageQueue ++ [(1, JsData.command ⟨cmd, n, args⟩)] },
            []) := by
        simp [sendCommandStart, send, hcon, hauto, hnp]
      rw [h1]
      exact CorrInv_register regs _ _ _ evs inv n hn _ (fun m => rfl)
    · rw [Bool.not_eq_true] at hauto
      have h1 : sendCommandStart c cmd n args =
          ({ c with armedTimers := n :: c.armedTimers,
                    pendingResponses := n :: c.pendingResponses,
                    settledPromises := n :: c.settledPromises },
            [Ev.settled n Outcome.rejectedSendError]) := by
        simp [sendCommandStart, send, settleOnce, hcon, hauto, hnp, hng]
      rw [h1]
      exact CorrInv_register_settle regs _ _ _ evs inv n hn Outcome.rejectedSendError

lemma CorrInvStep_inbound (regs : List String) (c : Client) (evs : List Ev)
    (inv : CorrInv regs (corrOf c) evs) (m : Msg)
    (hgood : (m.evt == some "ERROR" && truthyStr m.nonce && m.data == none) = false) :
    CorrInv regs (corrOf (handleMessageParsed c m).1)
      (evs ++ (handleMessageParsed c m).2) := by
  by_cases hmatch : truthyStr m.nonce = true ∧ m.nonce.getD "" ∈ c.pendingResponses
  · obtain ⟨htr, hmem⟩ := hmatch
    have hna : m.nonce.getD "" ∈ c.armedTimers := inv.psub _ hmem
    by_cases herr : m.evt == some "ERROR"
    · cases hd : m.data with
      | none =>
        exfalso
        rw [herr, htr, hd] at hgood
        simp at hgood
      | some d =>
        by_cases hgmem : m.nonce.getD "" ∈ c.settledPromises
        · have h1 : handleMessageParsed c m =
              ({ c with pendingResponses := c.pendingResponses.erase (m.nonce.getD ""),
                        armedTimers := c.armedTimers.erase (m.nonce.getD "") },
                [Ev.logged "info"]) := by
            simp [handleMessageParsed, htr, hmem, herr, hd, settleOnce, hgmem]
          rw [h1]
          have key := CorrInv_remove_settle regs c.pendingResponses c.armedTimers
            c.settledPromises evs inv (m.nonce.getD "") hna Outcome.rejectedRemote
          rw [if_pos hgmem, if_pos hgmem, List.append_nil] at key
          exact CorrInv_congr_evs regs _ _ _ (fun x => by simp [settlesOf_append]) key
        · have h1 : handleMessageParsed c m =
              ({ c with pendingResponses := c.pendingResponses.erase (m.nonce.getD ""),
                        armedTimers := c.armedTimers.erase (m.nonce.getD ""),
                        settledPromises := m.nonce.getD "" :: c.settledPromises },
                [Ev.logged "info",
                  Ev.settled (m.nonce.getD "") Outcome.rejectedRemote]) := by
            simp [handleMessageParsed, htr, hmem, herr, hd, settleOnce, hgmem]
          rw [h1]
          have key := CorrInv_remove_settle regs c.pendingResponses c.armedTimers
            c.settledPromises evs inv (m.nonce.getD "") hna Outcome.rejectedRemote
          rw [if_neg hgmem, if_neg hgmem] at key
          exact CorrInv_congr_evs regs _ _ _
            (fun x => by simp [settlesOf_append]) key
    · by_cases hgmem : m.nonce.getD "" ∈ c.settledPromises
      · have h1 : handleMessageParsed c m =
            ({ c with pendingResponses := c.pendingResponses.erase (m.nonce.getD ""),
                      armedTimers := c.armedTimers.erase (m.nonce.getD "") },
              [Ev.logged "info"]) := by
          simp [handleMessageParsed, htr, hmem, herr, settleOnce, hgmem]
        rw [h1]
        have key := CorrInv_remove_settle regs c.pendingResponses c.armedTimers
          c.settledPromises evs inv (m.nonce.getD "") hna Outcome.resolved
        rw [if_pos hgmem, if_pos hgmem, List.append_nil] at key
        exact CorrInv_congr_evs regs _ _ _ (fun x => by simp [settlesOf_append]) key
      · have h1 : handleMessageParsed c m =
            ({ c with pendingResponses := c.pendingResponses.erase (m.nonce.getD ""),
                      armedTimers := c.armedTimers.erase (m.nonce.getD ""),
                      settledPromises := m.nonce.getD "" :: c.settledPromises },
              [Ev.logged "info", Ev.settled (m.nonce.getD "") Outcome.resolved]) := by
          simp [handleMessageParsed, htr, hmem, herr, settleOnce, hgmem]
        rw [h1]
        have key := CorrInv_remove_settle regs c.pendingResponses c.armedTimers
          c.settledPromises evs inv (m.nonce.getD "") hna Outcome.resolved
        rw [if_neg hgmem, if_neg hgmem] at key
        exact CorrInv_congr_evs regs _ _ _ (fun x => by simp [settlesOf_append]) key
  · have h1 := handleMessageParsed_nomatch c m hmatch
    have h2 : corrOf (handleMessageParsed c m).1 = corrOf c := by rw [h1.1]
    rw [h2]
    exact CorrInv_noop regs _ evs inv _ h1.2

lemma CorrInvStep_timerFire (regs : List String) (c : Client) (evs : List Ev)
    (inv : CorrInv regs (corrOf c) evs) (n : String) :
    CorrInv regs (corrOf (timeoutFire c n).1) (evs ++ (timeoutFire c n).2) := by
  by_cases ha : n ∈ c.armedTimers
  · by_cases hg : n ∈ c.settledPromises
    · have h1 : timeoutFire c n =
          ({ c with armedTimers := c.armedTimers.erase n,
                    pendingResponses := c.pendingResponses.erase n }, []) := by
        simp [timeoutFire, settleOnce, ha, hg]
      rw [h1]
      have key := CorrInv_remove_settle regs c.pendingResponses c.armedTimers
        c.settledPromises evs inv n ha Outcome.rejectedTimeout
      rw [if_pos hg, if_pos hg] at key
      exact key
    · have h1 : timeoutFire c n =
          ({ c with armedTimers := c.armedTimers.erase n,
                    pendingResponses := c.pendingResponses.erase n,
                    settledPromises := n :: c.settledPromises },
            [Ev.settled n Outcome.rejectedTimeout]) := by
        simp [timeoutFire, settleOnce, ha, hg]
      rw [h1]
      have key := CorrInv_remove_settle regs c.pendingResponses c.armedTimers
        c.settledPromises evs inv n ha Outcome.rejectedTimeout
      rw [if_neg hg, if_neg hg] at key
      exact key
  · have h1 : timeoutFire c n = (c, []) := by
      simp [timeoutFire, ha]
    rw [h1, List.append_nil]
    exact inv

lemma CorrInvStep_discon (regs : List String) (c : Client) (evs : List Ev)
    (inv : CorrInv regs (corrOf c) evs) :
    CorrInv regs (corrOf (disconnect c).1) (evs ++ (disconnect c).2) :=
  CorrInv_clear_pending regs c.pendingResponses c.armedTimers c.settledPromises evs inv
    [Ev.emitted "disconnect", Ev.logged "info"] (fun m => rfl)

/-! ### Running a trace preserves the invariant -/

lemma corrInv_run : ∀ (t : List Act) (regs : List String) (c : Client) (evs : List Ev),
    CorrInv regs (corrOf c) evs → goodActs t = true → freshActs regs t = true →
    CorrInv (regsAfter regs t) (corrOf (runTrace c t).1) (evs ++ (runTrace c t).2) := by
  intro t
  induction t with
  | nil =>
    intro regs c evs inv _ _
    simpa [runTrace, regsAfter] using inv
  | cons a tl ih =>
    intro regs c evs inv hg hf
    have hg2 : goodActs tl = true := by
      simp only [goodActs, List.all_cons, Bool.and_eq_true] at hg
      exact hg.2
    cases a with
    | register cmd n args =>
      rw [show freshActs regs (Act.register cmd n args :: tl) =
        (!(decide (n ∈ regs)) && freshActs (n :: regs) tl) from rfl] at hf
      rw [Bool.and_eq_true] at hf
      have hn : n ∉ regs := by simpa using hf.1
      have hstep := CorrInvStep_register regs c evs inv cmd n args hn
      have hrec := ih (n :: regs) _ _ hstep hg2 hf.2
      simpa [runTrace, step, regsAfter, List.append_assoc] using hrec
    | inbound pm =>
      have hf2 : freshActs regs tl = true := hf
      cases pm with
      | none =>
        have hstep : CorrInv regs (corrOf c) (evs ++ [Ev.logged "error"]) :=
          CorrInv_noop regs _ evs inv _ (fun m => rfl)
        have hrec := ih regs _ _ hstep hg2 hf2
        simpa [runTrace, step, regsAfter, List.append_assoc] using hrec
      | some m =>
        have hcond : (m.evt == some "ERROR" && truthyStr m.nonce && m.data == none) = false := by
          simp only [goodActs, List.all_cons, Bool.and_eq_true] at hg
          have h1 : (!(m.evt == some "ERROR" && truthyStr m.nonce && m.data == none)) = true :=
            hg.1
          cases hcb : (m.evt == some "ERROR" && truthyStr m.nonce && m.data == none)
          · rfl
          · rw [hcb] at h1
            exact absurd h1 (by decide)
        have hstep := CorrInvStep_inbound regs c evs inv m hcond
        have hrec := ih regs _ _ hstep hg2 hf2
        simpa [runTrace, step, regsAfter, List.append_assoc] using hrec
    | timerFire n =>
      have hstep := CorrInvStep_timerFire regs c evs inv n
      have hrec := ih regs _ _ hstep hg2 hf
      simpa [runTrace, step, regsAfter, List.append_assoc] using hrec
    | discon =>
      have hstep := CorrInvStep_discon regs c evs inv
      have hrec := ih regs _ _ hstep hg2 hf
      simpa [runTrace, step, regsAfter, List.append_assoc] using hrec

lemma corrInv_initial : CorrInv [] (corrOf initClient) [] := by
  refine ⟨List.nodup_nil, List.nodup_nil, ?_, ?_, ?_, ?_, ?_⟩
  · intro n hn
    exact absurd hn (List.not_mem_nil n)
  · intro n hn
    exact absurd hn (List.not_mem_nil n)
  · intro n hn
    exact absurd hn (List.not_mem_nil n)
  · intro n
    simp [corrOf, initClient, mkClient]
  · intro n hn
    exact absurd hn (List.not_mem_nil n)

lemma goodActs_take (t : List Act) (k : Nat) (h : goodActs t = true) :
    goodActs (t.take k) = true := by
  induction t generalizing k with
  | nil => simp [goodActs]
  | cons a tl ih =>
    cases k with
    | zero => rfl
    | succ k2 =>
      simp only [List.take_succ_cons, goodActs, List.all_cons, Bool.and_eq_true] at h ⊢
      exact ⟨h.1, ih k2 h.2⟩

lemma freshActs_take : ∀ (t : List Act) (regs : List String) (k : Nat),
    freshActs regs t = true → freshActs regs (t.take k) = true := by
  intro t
  induction t with
  | nil => intro regs k _; simp [freshActs]
  | cons a tl ih =>
    intro regs k h
    cases k with
    | zero => rfl
    | succ k2 =>
      cases a with
      | register cmd n args =>
        rw [show freshActs regs (Act.register cmd n args :: tl) =
          (!(decide (n ∈ regs)) && freshActs (n :: regs) tl) from rfl,
          Bool.and_eq_true] at h
        rw [List.take_succ_cons,
          show freshActs regs (Act.register cmd n args :: tl.take k2) =
            (!(decide (n ∈ regs)) && freshActs (n :: regs) (tl.take k2)) from rfl,
          Bool.and_eq_true]
        exact ⟨h.1, ih (n :: regs) k2 h.2⟩
      | inbound pm => exact ih regs k2 h
      | timerFire n => exact ih regs k2 h
      | discon => exact ih regs k2 h

lemma mem_regsAfter : ∀ (t : List Act) (regs : List String) (n : String),
    n ∈ registersOf t ∨ n ∈ regs → n ∈ regsAfter regs t := by
  intro t
  induction t with
  | nil =>
    intro regs n h
    rcases h with h | h
    · simp [registersOf] at h
    · exact h
  | cons a tl ih =>
    intro regs n h
    cases a with
    | register cmd n2 args =>
      rcases h with h | h
      · rw [show registersOf (Act.register cmd n2 args :: tl) =
          n2 :: registersOf tl from rfl] at h
        rcases List.mem_cons.mp h with h2 | h2
        · exact ih (n2 :: regs) n (Or.inr (h2 ▸ List.mem_cons_self n2 regs))
        · exact ih (n2 :: regs) n (Or.inl h2)
      · exact ih (n2 :: regs) n (Or.inr (List.mem_cons.mpr (Or.inr h)))
    | inbound pm =>
      rcases h with h | h
      · exact ih regs n (Or.inl h)
      · exact ih regs n (Or.inr h)
    | timerFire n2 =>
      rcases h with h | h
      · exact ih regs n (Or.inl h)
      · exact ih regs n (Or.inr h)
    | discon =>
      rcases h with h | h
      · exact ih regs n (Or.inl h)
      · exact ih regs n (Or.inr h)

/-- A response for an already-settled nonce is ignored by the correlator: the
handling settles nothing (in particular nothing is resolved a second time)
and, for non-DISPATCH messages, emits no error event. -/
lemma handleMessageParsed_settled_ignored (c : Client) (m : Msg)
    (ht : truthyStr m.nonce = true)
    (hg : m.nonce.getD "" ∈ c.settledPromises)
    (hc : m.cmd ≠ some "DISPATCH") :
    (handleMessageParsed c m).2.filter isSettleEv = [] ∧
    Ev.emitted "error" ∉ (handleMessageParsed c m).2 := by
  by_cases hmem : m.nonce.getD "" ∈ c.pendingResponses
  · by_cases herr : m.evt == some "ERROR"
    · cases hd : m.data with
      | none =>
        have h1 : (handleMessageParsed c m).2 = [Ev.logged "info", Ev.logged "error"] := by
          simp [handleMessageParsed, ht, hmem, herr, hd]
        rw [h1]
        exact ⟨rfl, by simp⟩
      | some d =>
        have h1 : (handleMessageParsed c m).2 = [Ev.logged "info"] := by
          simp [handleMessageParsed, ht, hmem, herr, hd, settleOnce, hg]
        rw [h1]
        exact ⟨rfl, by simp⟩
    · have h1 : (handleMessageParsed c m).2 = [Ev.logged "info"] := by
        simp [handleMessageParsed, ht, hmem, herr, settleOnce, hg]
      rw [h1]
      exact ⟨rfl, by simp⟩
  · have hmatch : ¬(truthyStr m.nonce = true ∧ m.nonce.getD "" ∈ c.pendingResponses) :=
      fun h => hmem h.2
    have h1 : (handleMessageParsed c m).2 = [Ev.logged "info", Ev.emitted "message"] := by
      unfold handleMessageParsed
      rw [if_neg hmatch]
      match hcc : m.cmd with
      | none => rfl
      | some s =>
        rw [hcc] at hc
        have hs : s ≠ "DISPATCH" := fun h => hc (by rw [h])
        simp [hs]
    rw [h1]
    exact ⟨rfl, by simp⟩

/-! ### Claim C3: request correlation (corrected)

The claim says exactly one of resolve, remote-error reject, timeout reject
occurs per correlated command.  Two code paths break it: an inbound ERROR
response that carries no data object removes the entry and clears the timer
while the resolver raises before any reject, so the caller promise never
settles; and when the initial send throws (disconnected with auto-reconnect
off) the promise rejects with the not-connected error, which is none of the
three listed outcomes. -/

/-- Counterexample to C3 as stated: after a registered command receives an
ERROR response without a data object, no settlement has occurred, yet its
pending entry and its timeout timer are both gone, so neither the response,
nor a remote error, nor the timeout can ever settle it. -/
theorem c3_counterexample :
    settlesOf (runTrace initClient
        [Act.register "GET_USER" "n1" 0,
          Act.inbound (some ⟨some "n1", some "GET_USER", some "ERROR", none⟩)]).2 "n1" = [] ∧
    "n1" ∉ (runTrace initClient
        [Act.register "GET_USER" "n1" 0,
          Act.inbound (some ⟨some "n1", some "GET_USER", some "ERROR", none⟩)]).1.armedTimers ∧
    "n1" ∉ (runTrace initClient
        [Act.register "GET_USER" "n1" 0,
          Act.inbound (some ⟨some "n1", some "GET_USER", some "ERROR", none⟩)]).1.pendingResponses ∧
    "n1" ∉ (runTrace initClient
        [Act.register "GET_USER" "n1" 0,
          Act.inbound (some ⟨some "n1", some "GET_USER", some "ERROR", none⟩)]).1.settledPromises := by
  decide

/-- C3 amended.  Over any event-loop trace from a fresh client whose
registered nonces are fresh and whose inbound ERROR messages carry a data
object: the pending map never holds two entries for one nonce; every nonce
settles at most once; every registered nonce has settled exactly once unless
its timeout timer is still scheduled (whose firing settles it); and an inbound
response whose nonce already settled is ignored — it settles nothing and, for
non-DISPATCH messages, emits no error event. -/
theorem c3_correlator (t : List Act) (hg : goodActs t = true)
    (hf : freshActs [] t = true) :
    (∀ k : Nat, ((runTrace initClient (t.take k)).1.pendingResponses).Nodup) ∧
    (∀ n : String, (settlesOf (runTrace initClient t).2 n).length ≤ 1) ∧
    (∀ n : String, n ∈ registersOf t →
      (settlesOf (runTrace initClient t).2 n).length = 1 ∨
        n ∈ (runTrace initClient t).1.armedTimers) ∧
    (∀ m : Msg, truthyStr m.nonce = true →
      m.nonce.getD "" ∈ (runTrace initClient t).1.settledPromises →
      m.cmd ≠ some "DISPATCH" →
      (handleMessageParsed (runTrace initClient t).1 m).2.filter isSettleEv = [] ∧
      Ev.emitted "error" ∉ (handleMessageParsed (runTrace initClient t).1 m).2) := by
  have hrun := corrInv_run t [] initClient [] corrInv_initial hg hf
  rw [List.nil_append] at hrun
  refine ⟨?_, ?_, ?_, ?_⟩
  · intro k
    have h := corrInv_run (t.take k) [] initClient [] corrInv_initial
      (goodActs_take t k hg) (freshActs_take t [] k hf)
    exact h.pnodup
  · intro n
    rw [hrun.gcount n]
    split <;> omega
  · intro n hn
    rcases hrun.live n (mem_regsAfter t [] n (Or.inl hn)) with h | h
    · exact Or.inr h
    · left
      rw [hrun.gcount n, if_pos h]
  · intro m h1 h2 h3
    exact handleMessageParsed_settled_ignored _ m h1 h2 h3

/-- Witness for C3 amended: a concrete trace registering one command whose
timer then fires; the command settles exactly once. -/
theorem c3_correlator_witness :
    (settlesOf (runTrace initClient
        [Act.register "GET_USER" "n2" 0, Act.timerFire "n2"]).2 "n2").length = 1 ∨
      "n2" ∈ (runTrace initClient
        [Act.register "GET_USER" "n2" 0, Act.timerFire "n2"]).1.armedTimers :=
  (c3_correlator [Act.register "GET_USER" "n2" 0, Act.timerFire "n2"]
    (by decide) (by decide)).2.2.1 "n2" (by decide)

end DiscordIPC
